import Mathlib

/-!
Verification of the z7_vui stream-parsing and command-orchestration engine.

The Rust sources (`src/z7.rs`, `src/output_format.rs`) are shallowly embedded:
Rust `String`s become `List Char`, byte streams become `List Nat`, fallible
(panicking) code paths return `Option`, and the asynchronous interleaving of
the two output streams is made explicit through a schedule of boolean choices.
-/

namespace Z7V

/-- Program strings are modelled as lists of characters. -/
abbrev Str := List Char

/-- Embed a Lean string literal as a model string. -/
def str (x : String) : Str := x.data

/-- Rust `str::contains` for a substring needle. -/
def containsSub (hay needle : Str) : Bool :=
  match hay with
  | [] => needle.isEmpty
  | c :: t => needle.isPrefixOf (c :: t) || containsSub t needle

/-- Rust `str::trim_start_matches` with a string pattern: strip every
leading occurrence of the pattern. -/
def trimStartMatches (x pat : Str) : Str :=
  if h : pat ≠ [] ∧ pat.isPrefixOf x then
    trimStartMatches (x.drop pat.length) pat
  else x
termination_by x.length
decreasing_by
  have hp : pat <+: x := by
    have := h.2
    rwa [List.isPrefixOf_iff_prefix] at this
  have h1 : 1 ≤ pat.length := by
    cases pat with
    | nil => exact absurd rfl h.1
    | cons a t => simp
  have h2 : pat.length ≤ x.length := hp.length_le
  simp only [List.length_drop]
  omega

/-- The whitespace predicate used by Rust `str::trim` (restricted to the
ASCII whitespace actually reachable in this program's inputs). -/
def isWS (c : Char) : Bool := c = ' ' || c = '\t' || c = '\n' || c = '\r'

/-- Rust `str::trim`. -/
def trimChars (x : Str) : Str :=
  ((x.dropWhile isWS).reverse.dropWhile isWS).reverse

/-- Strip one trailing carriage return, as Rust `str::lines` does. -/
def stripCR (l : Str) : Str := if l.getLast? = some '\r' then l.dropLast else l

/-- Rust `str::lines`: split on newline, drop a trailing empty segment,
strip trailing carriage returns. -/
def rustLines (x : Str) : List Str :=
  let parts := x.splitOn '\n'
  let parts := if parts.getLast? = some [] then parts.dropLast else parts
  parts.map stripCR

/-- Byte-lexicographic comparison of strings (UTF-8 byte order coincides
with code-point order). -/
def strLe : Str → Str → Bool
  | [], _ => true
  | _ :: _, [] => false
  | a :: as, b :: bs => if a = b then strLe as bs else decide (a < b)

/-- Stable insertion used to model Rust's stable `Vec::sort`. -/
def insertSorted (a : Str) : List Str → List Str
  | [] => [a]
  | b :: t => if strLe a b then a :: b :: t else b :: insertSorted a t

/-- Rust `Vec::sort` on strings (stable; ties only between equal strings). -/
def sortStr (l : List Str) : List Str := l.foldr insertSorted []

/-- Rust `Vec::dedup`: collapse consecutive equal elements. -/
def dedupConsec : List Str → List Str
  | [] => []
  | [a] => [a]
  | a :: b :: t => if a = b then dedupConsec (b :: t) else a :: dedupConsec (b :: t)

/-- `parse_dash_line_to_range` loop body (`src/output_format.rs:317-340`).
`i` is the byte offset (`char_indices`), `len` the character count.  A write
to `ra[5]` in the Rust code is an out-of-bounds panic, modelled as `none`. -/
def set5 (ra : List (Nat × Nat)) (i : Nat) (v : Nat × Nat) : Option (List (Nat × Nat)) :=
  if i < ra.length then some (ra.set i v) else none

def parseDashGo : Str → Nat → List (Nat × Nat) → Nat → Nat → Nat → Char →
    Option (List (Nat × Nat))
  | [], _, ra, curI, start, len, _ => set5 ra curI (start, len)
  | c :: rest, i, ra, curI, start, len, lastC =>
    let len' := len + 1
    if c = ' ' then
      if lastC = ' ' then
        parseDashGo rest (i + c.utf8Size) ra curI (i + 1) len' lastC
      else
        match set5 ra curI (start, i) with
        | none => none
        | some ra' => parseDashGo rest (i + c.utf8Size) ra' (curI + 1) (i + 1) len' ' '
    else
      parseDashGo rest (i + c.utf8Size) ra curI start len' c

/-- `parse_dash_line_to_range` (`src/output_format.rs:317-340`): derive the
five column ranges from a dashed header line. -/
def parse_dash_line_to_range (line : Str) : Option (List (Nat × Nat)) :=
  parseDashGo line 0 (List.replicate 5 (0, 0)) 0 0 0 ' '

/-- A captured file-listing row (`FileLine`, `src/output_format.rs:218-227`). -/
structure FileLine where
  filename : Str
  raw : Str
deriving DecidableEq

/-- `FileLine::to_string` (`src/output_format.rs:224-226`). -/
def FileLine.render (f : FileLine) (extractPath : Str) : Str :=
  f.raw ++ extractPath ++ f.filename

/-- `FileLine::from` (`src/output_format.rs:229-242`): slice a raw row at the
template's column offsets.  A slice with an end past the row length panics in
Rust, modelled as `none`. -/
def fileLineFrom (x : Str) (tem : List (Nat × Nat)) : Option FileLine :=
  match tem[0]?, tem[4]? with
  | some t0, some t4 =>
    if t0.1 ≤ t4.1 ∧ t4.1 ≤ x.length then
      some { filename := x.drop t4.1, raw := (x.take t4.1).drop t0.1 }
    else none
  | _, _ => none

/-- State of the `FileListLB` classifier (`src/output_format.rs:244-254`). -/
structure FileListLB where
  inner : List FileLine := []
  headerLine : Option Str := none
  beginLine : Option Str := none
  endLine : Option Str := none
  template : Option (List (Nat × Nat)) := none
  summaryLine : Str := []
  capture : Bool := false
  extractPath : Str := []
deriving DecidableEq

/-- `FileListLB::input` (`src/output_format.rs:262-297`).  Returns the
claimed flag together with the updated state; `none` models a panic. -/
def FileListLB.input (fl : FileListLB) (x : Str) : Option (Bool × FileListLB) :=
  if (str "-----").isPrefixOf x then
    if fl.beginLine = none then
      match parse_dash_line_to_range x with
      | none => none
      | some tem =>
        some (true, { fl with template := some tem, beginLine := some x, capture := true })
    else
      some (true, { fl with endLine := some x })
  else if fl.capture then
    if fl.endLine ≠ none then
      some (true, { fl with capture := false, summaryLine := x })
    else if x = [] then
      some (true, fl)
    else
      match fl.template with
      | none => none
      | some tem =>
        match fileLineFrom x tem with
        | none => none
        | some f => some (true, { fl with inner := fl.inner ++ [f] })
  else if containsSub x (str "Attr") then
    some (true, { fl with headerLine := some x })
  else if (str "Set extract_path:").isPrefixOf x then
    some (true,
      { fl with extractPath := trimChars (trimStartMatches x (str "Set extract_path:")) })
  else
    some (false, fl)

/-- `FileListLB::output` (`src/output_format.rs:299-314`). -/
def FileListLB.output (fl : FileListLB) : List Str :=
  (match fl.headerLine with | none => [] | some l => [l]) ++
  (match fl.beginLine with | none => [] | some l => [l]) ++
  fl.inner.map (fun f => f.render fl.extractPath) ++
  (match fl.endLine with | none => [] | some l => [l, fl.summaryLine])

/-- `FileListLB::files` (`src/output_format.rs:257-259`). -/
def FileListLB.files (fl : FileListLB) : List Str := fl.inner.map (·.filename)

/-- State of the `PasswordLB` classifier (`src/output_format.rs:157-161`). -/
structure PasswordLB where
  inner : List Str := []
  passwordHistory : List Str := []
deriving DecidableEq

/-- The file system visible to `fs::read_to_string`, as a path/content
association list. -/
abbrev Fs := List (Str × Str)

def fsRead (fs : Fs) (path : Str) : Option Str :=
  (fs.find? (fun e => e.1 == path)).map (·.2)

/-- Rust `Vec::join` with a separator. -/
def joinSep (sep : Str) : List Str → Str
  | [] => []
  | [a] => a
  | a :: b :: t => a ++ sep ++ joinSep sep (b :: t)

/-- `PasswordLB::input` (`src/output_format.rs:163-212`).  The `inner[0]`
assignments panic on an empty vector, modelled as `none`. -/
def PasswordLB.input (fs : Fs) (p : PasswordLB) (x : Str) : Option (Bool × PasswordLB) :=
  let p :=
    if ((str "Enter password").isPrefixOf x || (str "Input passsword").isPrefixOf x)
        && decide (p.inner = []) then
      { p with inner := [[]] }
    else p
  if (str "Password history file: ").isPrefixOf x then
    match fsRead fs (trimStartMatches x (str "Password history file: ")) with
    | some content =>
      let hist := ((rustLines content).map trimChars).filter (fun l => decide (l ≠ []))
      let inner1 := if p.inner.length > 1 then p.inner.dropLast else p.inner
      let inner2 := inner1 ++ [str "select password use [Ctrl+x]: " ++ joinSep (str " | ") hist]
      some (true, { p with passwordHistory := hist, inner := inner2 })
    | none => some (true, p)
  else if (str "Enter password").isPrefixOf x then
    match p.inner with
    | [] => none
    | _ :: rest => some (true, { p with inner := (str "Enter password: ") :: rest })
  else if (str "Input password").isPrefixOf x then
    match p.inner with
    | [] => none
    | _ :: rest =>
      let v := str "Enter password: " ++ trimStartMatches x (str "Input password: ")
      some (true, { p with inner := v :: rest })
  else if (str "Save password").isPrefixOf x && decide (2 ≤ p.inner.length) then
    let hist :=
      dedupConsec (sortStr (p.passwordHistory ++ [trimStartMatches x (str "Save password: ")]))
    some (true, { p with passwordHistory := hist })
  else
    some (false, p)

/-- The closed set of `LineBuilder` variants other than the persistent
`FileListLB` (`src/output_format.rs:128-423`). -/
inductive LB where
  | title (inner : Str)
  | empty
  | capture (inner : Str) (done : Bool) (expression : Str)
  | password (p : PasswordLB)
  | property (inner : Str) (done : Bool)
  | error (inner : Str)
deriving DecidableEq

/-- `LineBuilder::input` dispatch over the variants.  `TitleLB` and `EmptyLB`
use the trait default which never claims. -/
def LB.input (fs : Fs) (lb : LB) (x : Str) : Option (Bool × LB) :=
  match lb with
  | .title t => some (false, .title t)
  | .empty => some (false, .empty)
  | .capture inner done expr =>
    if done then some (false, .capture inner done expr)
    else if containsSub x expr then some (true, .capture (inner ++ x) true expr)
    else some (false, .capture inner done expr)
  | .password p => (PasswordLB.input fs p x).map (fun r => (r.1, .password r.2))
  | .property inner done =>
    if done then some (false, .property inner done)
    else if (str "Type = ").isPrefixOf x then some (true, .property (inner ++ x) done)
    else if (str "Method = ").isPrefixOf x then
      some (true, .property (inner ++ ['\t'] ++ x) true)
    else some (false, .property inner done)
  | .error inner =>
    if (str "ERROR:").isPrefixOf x then some (true, .error (inner ++ x))
    else some (false, .error inner)

/-- `LineBuilder::output` dispatch over the variants. -/
def LB.output : LB → List Str
  | .title t => [t]
  | .empty => [[]]
  | .capture inner _ _ => [inner]
  | .password p => p.inner
  | .property inner _ => [inner]
  | .error inner => [inner]

/-- The title banner (`src/output_format.rs:133-140`). -/
def titleText : Str :=
  str "7Z-VUI, Shortcuts: `space+c`: execute extract|add; `space+q`: Quit this program; `space+r`: Retry"

/-- `Lines` (`src/output_format.rs:43-46`): the ordered classifiers plus the
persistent file-listing classifier. -/
structure Lines where
  inner : List LB
  fileListLB : FileListLB
deriving DecidableEq

/-- `Lines::new` (`src/output_format.rs:50-55`). -/
def Lines.init : Lines := { inner := [], fileListLB := {} }

/-- `Lines::new_list` (`src/output_format.rs:56-74`). -/
def Lines.newList : Lines :=
  { inner := [
      .title titleText, .empty,
      .capture [] false (str "Listing archive:"),
      .capture [] false (str "file,"),
      .empty, .password {}, .empty,
      .property [] false, .empty,
      .error [], .empty ],
    fileListLB := {} }

/-- `Lines::new_extract` (`src/output_format.rs:76-95`). -/
def Lines.newExtract : Lines :=
  { inner := [
      .title titleText, .empty,
      .capture [] false (str "Extracting archive:"),
      .capture [] false (str "file,"),
      .empty, .password {}, .empty,
      .property [] false, .empty,
      .capture [] false (str "Everything"),
      .error [], .empty ],
    fileListLB := {} }

/-- The for-loop of `Lines::input` (`src/output_format.rs:101-105`): offer the
line to each classifier, stopping at the first claimer. -/
def inputLBs (fs : Fs) : List LB → Str → Option (List LB)
  | [], _ => some []
  | lb :: rest, x =>
    match LB.input fs lb x with
    | none => none
    | some (true, lb') => some (lb' :: rest)
    | some (false, lb') => (inputLBs fs rest x).map (fun r => lb' :: r)

/-- `Lines::input` (`src/output_format.rs:97-106`): the persistent
file-listing classifier is offered the line first. -/
def Lines.input (fs : Fs) (ls : Lines) (x : Str) : Option Lines :=
  match ls.fileListLB.input x with
  | none => none
  | some (true, fl) => some { ls with fileListLB := fl }
  | some (false, fl) =>
    (inputLBs fs ls.inner x).map (fun inner' => { inner := inner', fileListLB := fl })

/-- `Lines::lines` (`src/output_format.rs:108-112`). -/
def Lines.lines (ls : Lines) : List Str :=
  (ls.inner.map LB.output).flatten ++ ls.fileListLB.output

/-- `Document` (`src/output_format.rs:6-41`). -/
structure Document where
  lbs : Lines
deriving DecidableEq

def Document.init : Document := ⟨Lines.init⟩

/-- `Document::input`. -/
def Document.input (fs : Fs) (d : Document) (x : Str) : Option Document :=
  (d.lbs.input fs x).map Document.mk

/-- `Document::output` (`src/output_format.rs:19-23`): render all classifier
outputs and collapse consecutive duplicates. -/
def Document.output (d : Document) : List Str := dedupConsec d.lbs.lines

/-- `Document::files`. -/
def Document.files (d : Document) : List Str := d.lbs.fileListLB.files

/-- `Document::layout_list` (`src/output_format.rs:30-34`): replace the
classifiers but carry the file-listing classifier over. -/
def Document.layoutList (d : Document) : Document :=
  ⟨{ Lines.newList with fileListLB := d.lbs.fileListLB }⟩

/-- `Document::layout_extract` (`src/output_format.rs:36-40`). -/
def Document.layoutExtract (d : Document) : Document :=
  ⟨{ Lines.newExtract with fileListLB := d.lbs.fileListLB }⟩

/-- Feed a sequence of raw lines to a Document in order. -/
def feedAll (fs : Fs) (d : Document) : List Str → Option Document
  | [] => some d
  | l :: t =>
    match d.input fs l with
    | none => none
    | some d' => feedAll fs d' t

/-- Classifier-state shapes reachable under the list layout: the variant
sequence is fixed by `Lines::new_list` while each classifier's own state
evolves. -/
def listShaped (inner : List LB) : Prop :=
  ∃ t i1 d1 i2 d2 pw pi pd ei,
    inner = [.title t, .empty, .capture i1 d1 (str "Listing archive:"),
      .capture i2 d2 (str "file,"), .empty, .password pw, .empty,
      .property pi pd, .empty, .error ei, .empty]

/-- Classifier-state shapes reachable under the extract layout
(`Lines::new_extract`). -/
def extractShaped (inner : List LB) : Prop :=
  ∃ t i1 d1 i2 d2 pw pi pd i3 d3 ei,
    inner = [.title t, .empty, .capture i1 d1 (str "Extracting archive:"),
      .capture i2 d2 (str "file,"), .empty, .password pw, .empty,
      .property pi pd, .empty, .capture i3 d3 (str "Everything"), .error ei, .empty]

/-- The first-claimer-wins dispatch contract for the classifier list: either
every classifier was offered the line and none claimed it, or there is a
single claiming position whose predecessors were offered the line and
declined it and whose successors were never offered it (their states are
untouched). -/
def dispatchSplit (fs : Fs) (x : Str) (lbs lbs' : List LB) : Prop :=
  lbs'.length = lbs.length ∧
  ((∀ i : Nat, i < lbs.length → ∃ lb lb', lbs[i]? = some lb ∧ lbs'[i]? = some lb' ∧
      LB.input fs lb x = some (false, lb'))
   ∨ ∃ (k : Nat) (lb lb' : LB), lbs[k]? = some lb ∧ lbs'[k]? = some lb' ∧
      LB.input fs lb x = some (true, lb') ∧
      (∀ j : Nat, j < k → ∃ p p', lbs[j]? = some p ∧ lbs'[j]? = some p' ∧
        LB.input fs p x = some (false, p')) ∧
      (∀ j : Nat, k < j → lbs'[j]? = lbs[j]?))

/-! ### The interleaved stream reader (`src/z7.rs:456-550`) -/

/-- A `(line, fd)` event (`fd` 1 = stdout, 2 = stderr) or the end signal
(`opt_sender.send(None)`). -/
inductive Ev where
  | line (text : Str) (fd : Nat)
  | endSig
deriving DecidableEq

/-- Reader state: the two pending byte streams, their EOF flags and the two
line accumulators of `read_output`. -/
structure RState where
  out : List Nat
  err : List Nat
  eofO : Bool
  eofE : Bool
  accO : Str
  accE : Str
deriving DecidableEq

/-- The per-byte logic of `read_output` (`src/z7.rs:470-494`): returns the
flushed line, if any, and the new accumulator. -/
def procByte (b : Nat) (acc : Str) : Option Str × Str :=
  if b = 0x0a then (some acc, [])
  else if b = 0x08 then (none, acc)
  else if b = 0x3a ∧ (str "Enter password").isPrefixOf acc then
    (some (acc ++ [':']), [])
  else (none, acc ++ [Char.ofNat b])

/-- One whole execution of the `read_output` loop over `OutputReader::read`
(`src/z7.rs:456-549`), driven by a schedule of `select!` choices
(`false` = stdout branch, `true` = stderr branch; a choice of an
EOF-disabled branch is redirected to the enabled one).  An erroring source
is surfaced by `OutputReader::read` as a synthetic `0x0a` on that source
until both sources are EOF, at which point the end signal is emitted and the
loop breaks. -/
def run : List Bool → RState → List Ev
  | [], _ => []
  | choice :: sched, st =>
    if st.eofO ∧ st.eofE then []
    else
      let src : Bool := if st.eofO then true else if st.eofE then false else choice
      if src = false then
        match st.out with
        | b :: rest =>
          match procByte b st.accO with
          | (some t, acc') => .line t 1 :: run sched { st with out := rest, accO := acc' }
          | (none, acc') => run sched { st with out := rest, accO := acc' }
        | [] =>
          if st.eofE then [.endSig]
          else .line st.accO 1 :: run sched { st with eofO := true, accO := [] }
      else
        match st.err with
        | b :: rest =>
          match procByte b st.accE with
          | (some t, acc') => .line t 2 :: run sched { st with err := rest, accE := acc' }
          | (none, acc') => run sched { st with err := rest, accE := acc' }
        | [] =>
          if st.eofO then [.endSig]
          else .line st.accE 2 :: run sched { st with eofE := true, accE := [] }

/-- Number of reader steps left before both sources are exhausted. -/
def RState.steps (st : RState) : Nat :=
  st.out.length + st.err.length + (if st.eofO then 0 else 1) + (if st.eofE then 0 else 1)

/-- The UTF-8 bytes of an ASCII string. -/
def bytesOf (x : String) : List Nat := x.data.map Char.toNat

/-- All boolean schedules of length at most `n`, used to enumerate the
reader's possible interleavings. -/
def allBounded : Nat → List (List Bool)
  | 0 => [[]]
  | n + 1 => [] :: ((allBounded n).map (false :: ·) ++ (allBounded n).map (true :: ·))

/-- Initial reader state for given stdout/stderr byte streams. -/
def rstate (out err : List Nat) : RState :=
  { out := out, err := err, eofO := false, eofE := false, accO := [], accE := [] }

/-! ### The command orchestrator (`src/z7.rs:27-386`) -/

/-- `Cmd` (`src/z7.rs:46-50`). -/
inductive Cmd where
  | List
  | Extract
deriving DecidableEq

/-- `ExecuteStatus` (`src/z7.rs:52-58`); the exit status is abstracted to its
code. -/
inductive ExecuteStatus where
  | List (code : Int)
  | Extract (code : Int)
  | None
  | Pedding
deriving DecidableEq

/-- `Operation` (`src/z7.rs:37-44`). -/
inductive Operation where
  | Password (text : Str)
  | SelectPassword (text : Str)
  | ExtractTo (path : Str)
  | Execute
  | Retry
deriving DecidableEq

/-- The orchestrator's shared state (`Z7`, `src/z7.rs:60-70`).  The child
stdin handle is modelled by its presence plus a log of the writes made
through it; the capacity-1 command channel is a queue list. -/
structure Z7State where
  password : Option Str
  selectedPassword : Option Str
  stdinPipe : Bool
  stdinWrites : List Str
  executeStatus : ExecuteStatus
  cmdQueue : List Cmd
  document : Document
  extractToPath : Str
deriving DecidableEq

/-- `try_send` on the capacity-1 command channel: a full queue is left
unchanged. -/
def trySend (q : List Cmd) (c : Cmd) : List Cmd :=
  if q.length < 1 then q ++ [c] else q

/-- `Z7::write_password` (`src/z7.rs:198-221`): write to the child stdin if a
handle is present (consuming it), record the password unless unchanged, and
feed a synthetic line to the Document. -/
def writePassword (fs : Fs) (st : Z7State) (pwd : Str) : Option Z7State :=
  let st :=
    if st.stdinPipe then
      { st with stdinPipe := false, stdinWrites := st.stdinWrites ++ [pwd] }
    else st
  if st.password = some pwd then some st
  else
    let st := { st with password := some pwd }
    (st.document.input fs (str "Input password: " ++ pwd)).map
      (fun d => { st with document := d })

/-- `Z7::set_extract_to_path` (`src/z7.rs:189-195`). -/
def setExtractToPath (fs : Fs) (st : Z7State) (path : Str) : Option Z7State :=
  let st := { st with extractToPath := path }
  (st.document.input fs (str "Extract to: " ++ path)).map
    (fun d => { st with document := d })

/-- One iteration of `Z7::operation_make` (`src/z7.rs:135-187`). -/
def operationMake (fs : Fs) (st : Z7State) (op : Operation) : Option Z7State :=
  match op with
  | .Execute => some { st with cmdQueue := st.cmdQueue ++ [Cmd.Extract] }
  | .Retry =>
    let st := { st with password := none }
    some { st with cmdQueue := trySend st.cmdQueue Cmd.List }
  | .ExtractTo path => setExtractToPath fs st path
  | .Password pwd => writePassword fs st pwd
  | .SelectPassword pwd =>
    if st.executeStatus ≠ ExecuteStatus.Pedding then
      let st := { st with password := none }
      let st := { st with cmdQueue := st.cmdQueue ++ [Cmd.List] }
      some { st with selectedPassword := some pwd }
    else
      writePassword fs st pwd

/-- The `Some(line)` arm of `Z7::read_document` (`src/z7.rs:323-367`): feed
the line to the Document; on a password prompt, also feed the history-file
line, take the stashed selected password and emit it as an
`Operation::Password` back into the operation channel. -/
def promptArrival (fs : Fs) (historyFile : Str) (st : Z7State) (line : Str) :
    Option (Z7State × Option Operation) :=
  match st.document.input fs line with
  | none => none
  | some d1 =>
    if (str "Enter password").isPrefixOf line then
      match d1.input fs (str "Password history file: " ++ historyFile) with
      | none => none
      | some d2 =>
        some ({ st with document := d2, selectedPassword := none },
          st.selectedPassword.map Operation.Password)
    else
      some ({ st with document := d1 }, none)

/-- Argument list composed by `execute_list` (`src/z7.rs:426-438`). -/
def executeListArgs (filename : Str) (password : Option Str) : List Str :=
  [str "l", filename] ++
    (match password with
     | some w => [str "-p" ++ w]
     | none => [])

/-- Argument list composed by `execute_extract` (`src/z7.rs:440-454`). -/
def executeExtractArgs (filename : Str) (password : Option Str) (extractToPath : Str) :
    List Str :=
  [str "x", filename, str "-y", str "-o" ++ extractToPath] ++
    (match password with
     | some w => [str "-p" ++ w]
     | none => [])

lemma getLastD_mem (r : Str) (h : r ≠ []) (d : Char) : r.getLastD d ∈ r := by
  rw [List.getLastD_eq_getLast?, List.getLast?_eq_getLast r h, Option.getD_some]
  exact List.getLast_mem h

lemma utf8Size_space : (' ' : Char).utf8Size = 1 := rfl

lemma parseDashGo_run (r : Str) (hr : ∀ c ∈ r, c ≠ ' ' ∧ c.utf8Size = 1) :
    ∀ rest i ra curI start len lastC,
      parseDashGo (r ++ rest) i ra curI start len lastC =
        parseDashGo rest (i + r.length) ra curI start (len + r.length) (r.getLastD lastC) := by
  induction r with
  | nil => intro rest i ra curI start len lastC; simp [List.getLastD]
  | cons c t ih =>
    intro rest i ra curI start len lastC
    have hc := hr c (by simp)
    rw [List.cons_append]
    rw [show parseDashGo (c :: (t ++ rest)) i ra curI start len lastC =
          parseDashGo (t ++ rest) (i + c.utf8Size) ra curI start (len + 1) c by
        simp [parseDashGo, hc.1]]
    rw [ih (fun x hx => hr x (by simp [hx])) rest]
    rw [hc.2, List.getLastD_cons, List.length_cons]
    ring_nf

lemma parseDashGo_gapTail (g : Str) (hg : ∀ c ∈ g, c = ' ') :
    ∀ rest i ra curI start len,
      parseDashGo (g ++ rest) i ra curI start len ' ' =
        parseDashGo rest (i + g.length) ra curI
          (if g = [] then start else i + g.length) (len + g.length) ' ' := by
  induction g with
  | nil => intro rest i ra curI start len; simp
  | cons c t ih =>
    intro rest i ra curI start len
    have hc := hg c (by simp)
    subst hc
    rw [List.cons_append]
    rw [show parseDashGo (' ' :: (t ++ rest)) i ra curI start len ' ' =
          parseDashGo (t ++ rest) (i + 1) ra curI (i + 1) (len + 1) ' ' by
        simp [parseDashGo, utf8Size_space]]
    rw [ih (fun x hx => hg x (by simp [hx])) rest]
    rw [List.length_cons, if_neg (List.cons_ne_nil _ _)]
    have e1 : i + 1 + t.length = i + (t.length + 1) := by omega
    have e2 : len + 1 + t.length = len + (t.length + 1) := by omega
    rw [e1, e2]
    have e3 : (if t = [] then i + 1 else i + (t.length + 1)) = i + (t.length + 1) := by
      by_cases ht : t = []
      · simp [ht]
      · rw [if_neg ht]
    rw [e3]

lemma parseDashGo_gap (g : Str) (hg : ∀ c ∈ g, c = ' ') (hne : g ≠ [])
    (rest : Str) (i : Nat) (ra : List (Nat × Nat)) (curI start len : Nat) (lastC : Char)
    (hlast : lastC ≠ ' ') (hcur : curI < ra.length) :
    parseDashGo (g ++ rest) i ra curI start len lastC =
      parseDashGo rest (i + g.length) (ra.set curI (start, i)) (curI + 1)
        (i + g.length) (len + g.length) ' ' := by
  cases g with
  | nil => exact absurd rfl hne
  | cons c t =>
    have hc : c = ' ' := hg c (by simp)
    subst hc
    rw [List.cons_append]
    rw [show parseDashGo (' ' :: (t ++ rest)) i ra curI start len lastC =
          parseDashGo (t ++ rest) (i + 1) (ra.set curI (start, i)) (curI + 1)
            (i + 1) (len + 1) ' ' by
        simp [parseDashGo, hlast, set5, hcur, utf8Size_space]]
    rw [parseDashGo_gapTail t (fun x hx => hg x (by simp [hx])) rest]
    rw [List.length_cons]
    have e1 : i + 1 + t.length = i + (t.length + 1) := by omega
    have e2 : len + 1 + t.length = len + (t.length + 1) := by omega
    rw [e1, e2]
    have e3 : (if t = [] then i + 1 else i + (t.length + 1)) = i + (t.length + 1) := by
      by_cases ht : t = []
      · simp [ht]
      · rw [if_neg ht]
    rw [e3]

lemma parseDashGo_runEnd (r : Str) (hr : ∀ c ∈ r, c ≠ ' ' ∧ c.utf8Size = 1)
    (i : Nat) (ra : List (Nat × Nat)) (curI start len : Nat) (lastC : Char) :
    parseDashGo r i ra curI start len lastC = set5 ra curI (start, len + r.length) := by
  have h := parseDashGo_run r hr [] i ra curI start len lastC
  rw [List.append_nil] at h
  rw [h]
  simp [parseDashGo]

/-- **C3** counterexample.  On the dashed header line
`"--- --- ---- ---- ----- "` — five space-separated runs followed by a
single trailing space — the parser does not produce ranges with the final
one extending to end-of-line: the trailing space closes a fifth range inside
the loop and the final assignment then writes `ra[5]`, an out-of-bounds
panic (modelled as `none`). -/
theorem C3_parse_dash_counterexample :
    parse_dash_line_to_range (str "--- --- ---- ---- ----- ") = none := by
  decide

/-- **C3** (amended).  For a header line of exactly five space-separated
runs of non-space (single-byte) characters with no leading or trailing
spaces, the parser yields five ranges exactly bounding each run, the final
one extending to the end of the line; the spec example holds.  (A line with
trailing spaces instead panics, see the counterexample.) -/
theorem C3_parse_dash_amended :
    (parse_dash_line_to_range (str "--- --- ---- ---- -----") =
      some [(0, 3), (4, 7), (8, 12), (13, 17), (18, 23)]) ∧
    ∀ r0 g0 r1 g1 r2 g2 r3 g3 r4 : Str,
      (∀ r ∈ [r0, r1, r2, r3, r4], r ≠ [] ∧ ∀ c ∈ r, c ≠ ' ' ∧ c.utf8Size = 1) →
      (∀ g ∈ [g0, g1, g2, g3], g ≠ [] ∧ ∀ c ∈ g, c = ' ') →
      parse_dash_line_to_range (r0 ++ g0 ++ r1 ++ g1 ++ r2 ++ g2 ++ r3 ++ g3 ++ r4) =
        some [(0, r0.length),
          (r0.length + g0.length,
           r0.length + g0.length + r1.length),
          (r0.length + g0.length + r1.length + g1.length,
           r0.length + g0.length + r1.length + g1.length + r2.length),
          (r0.length + g0.length + r1.length + g1.length + r2.length + g2.length,
           r0.length + g0.length + r1.length + g1.length + r2.length + g2.length +
             r3.length),
          (r0.length + g0.length + r1.length + g1.length + r2.length + g2.length +
             r3.length + g3.length,
           (r0 ++ g0 ++ r1 ++ g1 ++ r2 ++ g2 ++ r3 ++ g3 ++ r4).length)] := by
  refine ⟨by decide, ?_⟩
  intro r0 g0 r1 g1 r2 g2 r3 g3 r4 hr hg
  have hr0 := hr r0 (by simp); have hr1 := hr r1 (by simp); have hr2 := hr r2 (by simp)
  have hr3 := hr r3 (by simp); have hr4 := hr r4 (by simp)
  have hg0 := hg g0 (by simp); have hg1 := hg g1 (by simp)
  have hg2 := hg g2 (by simp); have hg3 := hg g3 (by simp)
  have hl0 : r0.getLastD ' ' ≠ ' ' := (hr0.2 _ (getLastD_mem r0 hr0.1 ' ')).1
  have hl1 : r1.getLastD ' ' ≠ ' ' := (hr1.2 _ (getLastD_mem r1 hr1.1 ' ')).1
  have hl2 : r2.getLastD ' ' ≠ ' ' := (hr2.2 _ (getLastD_mem r2 hr2.1 ' ')).1
  have hl3 : r3.getLastD ' ' ≠ ' ' := (hr3.2 _ (getLastD_mem r3 hr3.1 ' ')).1
  rw [parse_dash_line_to_range]
  simp only [List.append_assoc]
  rw [parseDashGo_run r0 hr0.2]
  simp only [Nat.zero_add]
  rw [parseDashGo_gap g0 hg0.2 hg0.1 _ _ _ _ _ _ _ hl0 (by simp)]
  rw [parseDashGo_run r1 hr1.2]
  rw [parseDashGo_gap g1 hg1.2 hg1.1 _ _ _ _ _ _ _ hl1 (by simp)]
  rw [parseDashGo_run r2 hr2.2]
  rw [parseDashGo_gap g2 hg2.2 hg2.1 _ _ _ _ _ _ _ hl2 (by simp)]
  rw [parseDashGo_run r3 hr3.2]
  rw [parseDashGo_gap g3 hg3.2 hg3.1 _ _ _ _ _ _ _ hl3 (by simp)]
  rw [parseDashGo_runEnd r4 hr4.2]
  rw [set5, if_pos (by simp)]
  simp only [List.replicate, List.set_cons_zero, List.set_cons_succ, List.length_append]
  norm_num
  omega

/-- Witness for `C3_parse_dash_amended` at the spec's example header. -/
theorem C3_parse_dash_amended_witness :
    parse_dash_line_to_range (str "--- --- ---- ---- -----") =
      some [(0, 3), (4, 7), (8, 12), (13, 17), (18, 23)] := by
  have h := C3_parse_dash_amended.2 (str "---") (str " ") (str "---") (str " ")
    (str "----") (str " ") (str "----") (str " ") (str "-----") (by decide) (by decide)
  exact Eq.trans (Eq.trans (by decide) h) (by decide)

/-! ### C2 and C4: the interleaved stream reader -/

lemma steps_pos_of_not_both (st : RState) (h : ¬(st.eofO ∧ st.eofE)) : 1 ≤ st.steps := by
  unfold RState.steps
  by_cases ho : st.eofO <;> by_cases he : st.eofE <;> simp [ho, he] at h ⊢

lemma run_take (sched : List Bool) : ∀ st : RState,
    run sched st = run (sched.take st.steps) st := by
  induction sched with
  | nil => intro st; simp
  | cons choice sched ih =>
    intro st
    by_cases hoe : st.eofO ∧ st.eofE
    · cases hk : st.steps with
      | zero => simp only [List.take_zero, run, if_pos hoe]
      | succ k => simp only [List.take_succ_cons, run, if_pos hoe]
    · have hpos : 1 ≤ st.steps := steps_pos_of_not_both st hoe
      obtain ⟨k, hk⟩ : ∃ k, st.steps = k + 1 := ⟨st.steps - 1, by omega⟩
      rw [hk, List.take_succ_cons]
      obtain ⟨out, err, eofO, eofE, accO, accE⟩ := st
      simp only [RState.steps] at hk
      cases eofO with
      | true =>
        cases eofE with
        | true => exact absurd ⟨rfl, rfl⟩ hoe
        | false =>
          cases err with
          | nil =>
            simp only [run]
            norm_num
          | cons b rest =>
            simp only [run]
            norm_num
            rcases hpb : procByte b accE with ⟨ev, acc'⟩
            cases ev <;> simp only []
            · rw [ih]
              have hs : RState.steps ⟨out, rest, true, false, accO, acc'⟩ = k := by
                simp [RState.steps] at hk ⊢; omega
              rw [hs]
            · rw [ih]
              have hs : RState.steps ⟨out, rest, true, false, accO, acc'⟩ = k := by
                simp [RState.steps] at hk ⊢; omega
              rw [hs]
      | false =>
        cases eofE with
        | true =>
          cases out with
          | nil =>
            simp only [run]
            norm_num
          | cons b rest =>
            simp only [run]
            norm_num
            rcases hpb : procByte b accO with ⟨ev, acc'⟩
            cases ev <;> simp only []
            · rw [ih]
              have hs : RState.steps ⟨rest, err, false, true, acc', accE⟩ = k := by
                simp [RState.steps] at hk ⊢; omega
              rw [hs]
            · rw [ih]
              have hs : RState.steps ⟨rest, err, false, true, acc', accE⟩ = k := by
                simp [RState.steps] at hk ⊢; omega
              rw [hs]
        | false =>
          cases choice with
          | false =>
            cases out with
            | nil =>
              simp only [run]
              norm_num
              rw [ih]
              have hs : RState.steps ⟨[], err, true, false, [], accE⟩ = k := by
                simp [RState.steps] at hk ⊢; omega
              rw [hs]
            | cons b rest =>
              simp only [run]
              norm_num
              rcases hpb : procByte b accO with ⟨ev, acc'⟩
              cases ev <;> simp only []
              · rw [ih]
                have hs : RState.steps ⟨rest, err, false, false, acc', accE⟩ = k := by
                  simp [RState.steps] at hk ⊢; omega
                rw [hs]
              · rw [ih]
                have hs : RState.steps ⟨rest, err, false, false, acc', accE⟩ = k := by
                  simp [RState.steps] at hk ⊢; omega
                rw [hs]
          | true =>
            cases err with
            | nil =>
              simp only [run]
              norm_num
              rw [ih]
              have hs : RState.steps ⟨out, [], false, true, accO, []⟩ = k := by
                simp [RState.steps] at hk ⊢; omega
              rw [hs]
            | cons b rest =>
              simp only [run]
              norm_num
              rcases hpb : procByte b accE with ⟨ev, acc'⟩
              cases ev <;> simp only []
              · rw [ih]
                have hs : RState.steps ⟨out, rest, false, false, accO, acc'⟩ = k := by
                  simp [RState.steps] at hk ⊢; omega
                rw [hs]
              · rw [ih]
                have hs : RState.steps ⟨out, rest, false, false, accO, acc'⟩ = k := by
                  simp [RState.steps] at hk ⊢; omega
                rw [hs]


lemma mem_allBounded : ∀ (n : Nat) (l : List Bool), l.length ≤ n → l ∈ allBounded n := by
  intro n
  induction n with
  | zero => intro l h; interval_cases hl : l.length; · simp [List.length_eq_zero.mp hl, allBounded]
  | succ n ih =>
    intro l h
    cases l with
    | nil => simp [allBounded]
    | cons b t =>
      have ht : t.length ≤ n := by simpa using h
      have := ih t ht
      cases b <;> simp [allBounded] <;> exact this

set_option maxRecDepth 4000 in
lemma c2_bounded : ∀ l ∈ allBounded 6,
    Ev.endSig ∈ run l (rstate (bytesOf "a\n") (bytesOf "b\n")) →
      (run l (rstate (bytesOf "a\n") (bytesOf "b\n"))).count (Ev.line (str "a") 1) = 1 ∧
      (run l (rstate (bytesOf "a\n") (bytesOf "b\n"))).count (Ev.line (str "b") 2) = 1 ∧
      (run l (rstate (bytesOf "a\n") (bytesOf "b\n"))).getLast? = some Ev.endSig ∧
      (run l (rstate (bytesOf "a\n") (bytesOf "b\n"))).count Ev.endSig = 1 ∧
      (run l (rstate (bytesOf "a\n") (bytesOf "b\n"))).count (Ev.line [] 1) + (run l (rstate (bytesOf "a\n") (bytesOf "b\n"))).count (Ev.line [] 2) = 1 := by
  decide


/-- **C2** counterexample.  Stderr errors before any bytes arrive (its byte
stream is empty) while stdout carries `"a\n"`: the reader still emits the
line event `("", Stderr)` for the erroring source — `OutputReader::read`
surfaces the error as a synthetic newline which `read_output` flushes as an
(empty) line — contradicting "a source that errors before any bytes arrive
contributes no line event". -/
theorem C2_reader_counterexample :
    Ev.line [] 2 ∈ run [true, false, false, false] (rstate (bytesOf "a\n") []) ∧
    run [true, false, false, false] (rstate (bytesOf "a\n") []) =
      [Ev.line [] 2, Ev.line (str "a") 1, Ev.endSig] := by
  decide

/-- **C2** (amended).  For stdout bytes `"a\n"` and stderr bytes `"b\n"`
under any interleaving that drains both sources, the reader emits exactly
one `("a", Stdout)` event and exactly one `("b", Stderr)` event, plus
exactly one empty-line event contributed by whichever source reaches
end-of-stream first (rather than no event), and the end signal is emitted
exactly once, last, once both sources are closed. -/
theorem C2_reader_amended (sched : List Bool)
    (h : Ev.endSig ∈ run sched (rstate (bytesOf "a\n") (bytesOf "b\n"))) :
    (run sched (rstate (bytesOf "a\n") (bytesOf "b\n"))).count (Ev.line (str "a") 1) = 1 ∧
    (run sched (rstate (bytesOf "a\n") (bytesOf "b\n"))).count (Ev.line (str "b") 2) = 1 ∧
    (run sched (rstate (bytesOf "a\n") (bytesOf "b\n"))).getLast? = some Ev.endSig ∧
    (run sched (rstate (bytesOf "a\n") (bytesOf "b\n"))).count Ev.endSig = 1 ∧
    (run sched (rstate (bytesOf "a\n") (bytesOf "b\n"))).count (Ev.line [] 1) +
      (run sched (rstate (bytesOf "a\n") (bytesOf "b\n"))).count (Ev.line [] 2) = 1 := by
  have e : run sched (rstate (bytesOf "a\n") (bytesOf "b\n")) =
      run (sched.take 6) (rstate (bytesOf "a\n") (bytesOf "b\n")) := by
    have hs : (rstate (bytesOf "a\n") (bytesOf "b\n")).steps = 6 := rfl
    have h6 := run_take sched (rstate (bytesOf "a\n") (bytesOf "b\n"))
    rwa [hs] at h6
  rw [e] at h ⊢
  refine c2_bounded _ (mem_allBounded 6 _ ?_) h
  rw [List.length_take]
  exact min_le_left _ _

/-- Witness for `C2_reader_amended` at a concrete complete schedule. -/
theorem C2_reader_amended_witness :
    (run [false, false, true, true, false, true]
        (rstate (bytesOf "a\n") (bytesOf "b\n"))).count (Ev.line (str "a") 1) = 1 ∧
    (run [false, false, true, true, false, true]
        (rstate (bytesOf "a\n") (bytesOf "b\n"))).count (Ev.line (str "b") 2) = 1 ∧
    (run [false, false, true, true, false, true]
        (rstate (bytesOf "a\n") (bytesOf "b\n"))).getLast? = some Ev.endSig ∧
    (run [false, false, true, true, false, true]
        (rstate (bytesOf "a\n") (bytesOf "b\n"))).count Ev.endSig = 1 ∧
    (run [false, false, true, true, false, true]
        (rstate (bytesOf "a\n") (bytesOf "b\n"))).count (Ev.line [] 1) +
      (run [false, false, true, true, false, true]
        (rstate (bytesOf "a\n") (bytesOf "b\n"))).count (Ev.line [] 2) = 1 :=
  C2_reader_amended [false, false, true, true, false, true] (by decide)

/-- **C4** counterexample.  Feeding the prompt bytes `"Enter password: "`
(colon followed by a space, no newline) to stdout, the reader flushes at the
colon: the emitted event text is `"Enter password:"` and no event with the
claimed text `"Enter password: "` is ever produced. -/
theorem C4_colon_flush_counterexample :
    run (List.replicate 18 false) (rstate (bytesOf "Enter password: ") []) =
      [Ev.line (str "Enter password:") 1, Ev.line (str " ") 1, Ev.endSig] ∧
    Ev.line (str "Enter password: ") 1 ∉
      run (List.replicate 18 false) (rstate (bytesOf "Enter password: ") []) := by
  decide

/-- **C4** (amended).  A colon byte received while the accumulator starts
with the password-prompt marker flushes the accumulator immediately — the
colon is appended and the line is emitted without waiting for a newline; on
the newline-free prompt bytes `"Enter password: "` the event
`"Enter password:"` is emitted (the flush happens at the colon, so bytes
after the colon are not part of the event). -/
theorem C4_colon_flush_amended :
    (∀ acc : Str, (str "Enter password").isPrefixOf acc →
      procByte 0x3a acc = (some (acc ++ [':']), [])) ∧
    (Ev.line (str "Enter password:") 1 ∈
      run (List.replicate 18 false) (rstate (bytesOf "Enter password: ") []) ∧
     ∀ b ∈ bytesOf "Enter password: ", b ≠ 0x0a) := by
  refine ⟨?_, by decide, by decide⟩
  intro acc hacc
  unfold procByte
  rw [if_neg (by decide), if_neg (by decide), if_pos ⟨rfl, hacc⟩]

/-- Witness for `C4_colon_flush_amended` at a concrete accumulator. -/
theorem C4_colon_flush_amended_witness :
    procByte 0x3a (str "Enter password") = (some (str "Enter password" ++ [':']), []) :=
  C4_colon_flush_amended.1 (str "Enter password") (by decide)

/-! ### C6 and C7: password selection and retry in the orchestrator -/

/-- **C6**.  `Operation::SelectPassword(text)` is conditional on the execute
status: when the status is not `Pedding`, it clears the stored password,
enqueues `Cmd::List` and stashes the selection in `selected_password`; a
subsequent password-prompt line then re-emits the stash as an
`Operation::Password`, and processing an `Operation::Password` writes the
password to the child stdin handle when one is present.  When the status is
`Pedding`, the selection is processed exactly as `Operation::Password`. -/
theorem C6_select_password (fs : Fs) (st : Z7State) (pwd : Str) :
    (st.executeStatus ≠ ExecuteStatus.Pedding →
      operationMake fs st (Operation.SelectPassword pwd) =
        some { st with password := none,
                       cmdQueue := st.cmdQueue ++ [Cmd.List],
                       selectedPassword := some pwd }) ∧
    (st.executeStatus = ExecuteStatus.Pedding →
      operationMake fs st (Operation.SelectPassword pwd) =
        operationMake fs st (Operation.Password pwd)) ∧
    (∀ hf line st' emitted, st.selectedPassword = some pwd →
      promptArrival fs hf st line = some (st', emitted) →
      (str "Enter password").isPrefixOf line →
      emitted = some (Operation.Password pwd)) ∧
    (∀ st'', st.stdinPipe = true →
      operationMake fs st (Operation.Password pwd) = some st'' →
      st''.stdinWrites = st.stdinWrites ++ [pwd] ∧ st''.stdinPipe = false) := by
  refine ⟨?_, ?_, ?_, ?_⟩
  · intro h
    simp only [operationMake, if_pos h]
  · intro h
    simp only [operationMake, h, ne_eq, not_true_eq_false, if_false, ite_false]
  · intro hf line st' emitted hsel harr hline
    simp only [promptArrival] at harr
    rcases hd1 : Document.input fs st.document line with _ | d1 <;> rw [hd1] at harr
    · exact absurd harr (by simp)
    · simp only [hline, if_true] at harr
      rcases hd2 : Document.input fs d1 (str "Password history file: " ++ hf) with _ | d2 <;>
        rw [hd2] at harr
      · exact absurd harr (by simp)
      · simp only [Option.some.injEq, Prod.mk.injEq] at harr
        rw [← harr.2, hsel]
        rfl
  · intro st'' hpipe hop
    simp only [operationMake, writePassword, hpipe, if_true] at hop
    by_cases hpw : st.password = some pwd
    · rw [if_pos hpw] at hop
      injection hop with hop
      rw [← hop]
      exact ⟨rfl, rfl⟩
    · rw [if_neg hpw] at hop
      rcases hd : Document.input fs st.document (str "Input password: " ++ pwd) with _ | d <;>
        rw [hd] at hop
      · exact absurd hop (by simp)
      · simp only [Option.map_some', Option.some.injEq] at hop
        rw [← hop]
        exact ⟨rfl, rfl⟩

/-- Witness for `C6_select_password` at a concrete idle state. -/
theorem C6_select_password_witness :
    operationMake []
      { password := none, selectedPassword := none, stdinPipe := true, stdinWrites := [],
        executeStatus := ExecuteStatus.None, cmdQueue := [], document := Document.init,
        extractToPath := [] } (Operation.SelectPassword (str "pw")) =
    some
      { password := none, selectedPassword := some (str "pw"), stdinPipe := true,
        stdinWrites := [], executeStatus := ExecuteStatus.None, cmdQueue := [Cmd.List],
        document := Document.init, extractToPath := [] } :=
  (C6_select_password []
    { password := none, selectedPassword := none, stdinPipe := true, stdinWrites := [],
      executeStatus := ExecuteStatus.None, cmdQueue := [], document := Document.init,
      extractToPath := [] } (str "pw")).1 (by decide)

/-- **C7**.  `Operation::Retry` clears the stored password and enqueues
`Cmd::List` best-effort: an empty capacity-1 queue receives the command, a
full one is left unchanged (the `try_send` error is discarded), and the
operation always succeeds; a list run composed with no stored password has
exactly the arguments `["l", file]` — no `-p` flag. -/
theorem C7_retry (fs : Fs) (st : Z7State) :
    (operationMake fs st Operation.Retry =
      some { st with password := none,
                     cmdQueue := if st.cmdQueue = [] then [Cmd.List] else st.cmdQueue }) ∧
    (∀ f : Str, executeListArgs f none = [str "l", f]) := by
  constructor
  · by_cases hq : st.cmdQueue = []
    · simp [operationMake, trySend, hq]
    · have hlen : ¬ st.cmdQueue.length < 1 := by
        rcases hq2 : st.cmdQueue with _ | ⟨c, t⟩
        · exact absurd hq2 hq
        · simp
      simp [operationMake, trySend, hlen, hq]
  · intro f
    rfl

/-! ### C9: rendering collapses consecutive duplicates -/

lemma dedupConsec_cons_head : ∀ (t : List Str) (b : Str),
    ∃ t', dedupConsec (b :: t) = b :: t' := by
  intro t
  induction t with
  | nil => intro b; exact ⟨[], rfl⟩
  | cons c t2 ih =>
    intro b
    by_cases hbc : b = c
    · obtain ⟨t', ht'⟩ := ih c
      refine ⟨t', ?_⟩
      simp only [dedupConsec, if_pos hbc]
      rw [ht', hbc]
    · exact ⟨dedupConsec (c :: t2), by simp only [dedupConsec, if_neg hbc]⟩

lemma dedupConsec_chain : ∀ l : List Str, List.Chain' (fun a b => a ≠ b) (dedupConsec l) := by
  intro l
  induction l with
  | nil => simp [dedupConsec]
  | cons a t ih =>
    cases t with
    | nil => simp [dedupConsec]
    | cons b t2 =>
      by_cases hab : a = b
      · simpa only [dedupConsec, if_pos hab] using ih
      · simp only [dedupConsec, if_neg hab]
        obtain ⟨t', ht'⟩ := dedupConsec_cons_head t2 b
        rw [ht']
        rw [ht'] at ih
        exact List.Chain'.cons hab ih

/-- **C9**.  For every Document state — in particular whatever raw lines
were fed, including the same line twice — the rendered output never
contains two identical consecutive lines: `Document::output` collapses
consecutive duplicates via `Vec::dedup`. -/
theorem C9_no_consecutive_duplicate_lines (d : Document) :
    List.Chain' (fun a b => a ≠ b) d.output :=
  dedupConsec_chain d.lbs.lines

/-! ### C5: Operation::ExtractTo and the rendered buffer -/

lemma fileListLB_input_false (fl : FileListLB) (x : Str)
    (hdash : (str "-----").isPrefixOf x = false)
    (hcap : fl.capture = false)
    (hattr : containsSub x (str "Attr") = false)
    (hset : (str "Set extract_path:").isPrefixOf x = false) :
    fl.input x = some (false, fl) := by
  simp only [FileListLB.input, hdash, hcap, hattr, hset]
  simp

lemma inputLBs_all_false (fs : Fs) (x : Str) : ∀ lbs : List LB,
    (∀ lb ∈ lbs, LB.input fs lb x = some (false, lb)) →
    inputLBs fs lbs x = some lbs := by
  intro lbs h
  induction lbs with
  | nil => rfl
  | cons lb rest ih =>
    simp only [inputLBs, h lb (by simp)]
    rw [ih (fun l hl => h l (by simp [hl]))]
    rfl

/-- **C5** counterexample.  A Document that has completed a listing (one
captured row `"0123456789ABfile.png"`, capture closed) is fed the synthetic
line produced by `Operation::ExtractTo` — `"Extract to: /outdir"`.  No
classifier claims it: the Document is left completely unchanged
(`decide (d' = d)` is `true`), so the new path does not appear in the
rendered buffer and the rendering of the already-captured FileLine is not
affected (no rendered line contains `"/outdir"`). -/
theorem C5_extract_to_counterexample :
    (feedAll [] (Document.layoutList Document.init)
        [str "----- - - - ---", str "0123456789ABfile.png",
         str "----- - - - ---", str "sum"]).map
      (fun d =>
        (d.files,
         (d.input [] (str "Extract to: /outdir")).map
           (fun d' => (decide (d' = d),
                       d'.output.any (fun l => containsSub l (str "/outdir")))))) =
      some ([str "file.png"], some (true, false)) := by
  decide

/-- **C5** (amended).  `Operation::ExtractTo(path)` updates the extraction
target and feeds the synthetic line `"Extract to: <path>"` to the Document,
but — whenever file capture is not active and the line does not happen to
contain one of the capture markers — no classifier claims that line, so the
Document is unchanged: the new path does not appear in the rendered buffer,
and the rendering of already-captured FileLine entries is unaffected (the
retroactive extract path is only settable through a `"Set extract_path:"`
line, which this operation does not produce). -/
theorem C5_extract_to_amended (fs : Fs) (st : Z7State) (path : Str)
    (hcap : st.document.lbs.fileListLB.capture = false)
    (hattr : containsSub (str "Extract to: " ++ path) (str "Attr") = false)
    (hlbs : ∀ lb ∈ st.document.lbs.inner,
      LB.input fs lb (str "Extract to: " ++ path) = some (false, lb)) :
    operationMake fs st (Operation.ExtractTo path) =
      some { st with extractToPath := path } ∧
    ({ st with extractToPath := path } : Z7State).document.output = st.document.output ∧
    ({ st with extractToPath := path } : Z7State).document.files = st.document.files := by
  refine ⟨?_, rfl, rfl⟩
  have hdash : (str "-----").isPrefixOf (str "Extract to: " ++ path) = false := rfl
  have hset : (str "Set extract_path:").isPrefixOf (str "Extract to: " ++ path) = false := rfl
  simp only [operationMake, setExtractToPath, Document.input, Lines.input,
    fileListLB_input_false _ _ hdash hcap hattr hset]
  rw [inputLBs_all_false fs _ _ hlbs]
  rfl

/-- Witness for `C5_extract_to_amended` at a concrete fresh list-layout
state. -/
theorem C5_extract_to_amended_witness :
    operationMake []
      { password := none, selectedPassword := none, stdinPipe := false, stdinWrites := [],
        executeStatus := ExecuteStatus.None, cmdQueue := [],
        document := Document.layoutList Document.init, extractToPath := [] }
      (Operation.ExtractTo (str "/outdir")) =
    some
      { password := none, selectedPassword := none, stdinPipe := false, stdinWrites := [],
        executeStatus := ExecuteStatus.None, cmdQueue := [],
        document := Document.layoutList Document.init, extractToPath := str "/outdir" } :=
  (C5_extract_to_amended []
    { password := none, selectedPassword := none, stdinPipe := false, stdinWrites := [],
      executeStatus := ExecuteStatus.None, cmdQueue := [],
      document := Document.layoutList Document.init, extractToPath := [] }
    (str "/outdir") (by decide) (by decide) (by decide)).1

/-! ### C10: FileListing priority and capture -/

/-- **C10** counterexample.  After the first dashed rule line capture is
active, but the non-empty line `"x"` — shorter than the fifth column's
start offset — is not consumed as a file-listing row: slicing it at the
template offsets panics (`none`), so "every non-empty line is consumed as a
file-listing row" fails. -/
theorem C10_capture_counterexample :
    ((Document.layoutList Document.init).input [] (str "----- - - - ---")).map
      (fun d => (d.lbs.fileListLB.capture, d.input [] (str "x"))) =
      some (true, none) := by
  decide

/-- **C10** (amended).  Every raw line is offered to the persistent
FileListing classifier before any other classifier: when it claims the line
the other classifiers' states are untouched.  While capture is active
(begin rule seen, end rule not yet) every non-empty non-rule line that is at
least as long as the fifth column's start offset is consumed as a
file-listing row — including lines the Error classifier would otherwise
claim; shorter lines panic instead of being captured. -/
theorem C10_capture_amended (fs : Fs) (ls : Lines) (x : Str) :
    (∀ fl', ls.fileListLB.input x = some (true, fl') →
      Lines.input fs ls x = some { inner := ls.inner, fileListLB := fl' }) ∧
    (∀ tem t0 t4, ls.fileListLB.capture = true → ls.fileListLB.endLine = none →
      (str "-----").isPrefixOf x = false → x ≠ [] →
      ls.fileListLB.template = some tem → tem[0]? = some t0 → tem[4]? = some t4 →
      t0.1 ≤ t4.1 → t4.1 ≤ x.length →
      Lines.input fs ls x = some
        { inner := ls.inner,
          fileListLB := { ls.fileListLB with
            inner := ls.fileListLB.inner ++
              [⟨x.drop t4.1, (x.take t4.1).drop t0.1⟩] } }) := by
  constructor
  · intro fl' hfl
    simp only [Lines.input, hfl]
  · intro tem t0 t4 hcap hend hdash hne htem h0 h4 hle hlen
    have hfl : ls.fileListLB.input x = some (true,
        { ls.fileListLB with
          inner := ls.fileListLB.inner ++ [⟨x.drop t4.1, (x.take t4.1).drop t0.1⟩] }) := by
      simp only [FileListLB.input, hdash, hcap, hend, htem, fileLineFrom, h0, h4, hne,
        Bool.false_eq_true, if_false, if_true, ne_eq, not_true_eq_false, ite_false,
        if_neg hne, if_pos (And.intro hle hlen)]
    simp only [Lines.input, hfl]

/-- Witness for `C10_capture_amended`: with capture active, a line starting
with the Error classifier's `"ERROR:"` marker is still consumed as a
file-listing row and no other classifier's state changes. -/
theorem C10_capture_amended_witness :
    Lines.input []
      (((Document.layoutList Document.init).input []
          (str "----- - - - ---")).getD Document.init).lbs
      (str "ERROR: 789ABfile.png") =
    some
      { inner := Lines.newList.inner,
        fileListLB :=
          { inner := [⟨str "file.png", str "ERROR: 789AB"⟩],
            headerLine := none,
            beginLine := some (str "----- - - - ---"),
            endLine := none,
            template := some [(0, 5), (6, 7), (8, 9), (10, 11), (12, 15)],
            summaryLine := [], capture := true, extractPath := [] } } := by
  have h := (C10_capture_amended []
      (((Document.layoutList Document.init).input []
          (str "----- - - - ---")).getD Document.init).lbs
      (str "ERROR: 789ABfile.png")).2
      [(0, 5), (6, 7), (8, 9), (10, 11), (12, 15)] (0, 5) (12, 15)
      (by decide) (by decide) (by decide) (by decide) (by decide) (by decide) (by decide)
      (by decide) (by decide)
  exact h.trans (by decide)

/-! ### C8: first-claim-wins dispatch -/

lemma password_input_false (fs : Fs) (p : PasswordLB) (x : Str) (p' : PasswordLB)
    (h : PasswordLB.input fs p x = some (false, p')) :
    p' = p ∨ (p.inner = [] ∧ p' = { p with inner := [[]] }) := by
  simp only [PasswordLB.input] at h
  set p2 := if ((str "Enter password").isPrefixOf x || (str "Input passsword").isPrefixOf x)
      && decide (p.inner = []) then { p with inner := ([[]] : List Str) } else p with hp2
  by_cases hh : (str "Password history file: ").isPrefixOf x
  · rw [if_pos hh] at h
    rcases hread : fsRead fs (trimStartMatches x (str "Password history file: ")) with _ | c <;>
      rw [hread] at h <;> simp at h
  · rw [if_neg hh] at h
    by_cases he : (str "Enter password").isPrefixOf x
    · rw [if_pos he] at h
      rcases hpi : p2.inner with _ | ⟨a, rest⟩ <;> rw [hpi] at h <;> simp at h
    · rw [if_neg he] at h
      by_cases hi : (str "Input password").isPrefixOf x
      · rw [if_pos hi] at h
        rcases hpi : p2.inner with _ | ⟨a, rest⟩ <;> rw [hpi] at h <;> simp at h
      · rw [if_neg hi] at h
        by_cases hs : ((str "Save password").isPrefixOf x && decide (2 ≤ p2.inner.length)) = true
        · rw [if_pos hs] at h
          simp at h
        · rw [if_neg hs] at h
          simp only [Option.some.injEq, Prod.mk.injEq] at h
          by_cases hc : (((str "Enter password").isPrefixOf x ||
              (str "Input passsword").isPrefixOf x) && decide (p.inner = [])) = true
          · right
            have hpin : p.inner = [] := by
              have := (Bool.and_eq_true _ _).mp hc
              simpa using this.2
            rw [hp2, if_pos hc] at h
            exact ⟨hpin, h.2.symm⟩
          · left
            rw [hp2, if_neg hc] at h
            exact h.2.symm

lemma lb_input_false (fs : Fs) (lb lb' : LB) (x : Str)
    (h : LB.input fs lb x = some (false, lb')) :
    lb' = lb ∨ (∃ pw, lb = .password pw ∧ pw.inner = [] ∧
      lb' = .password { pw with inner := [[]] }) := by
  cases lb with
  | title t => left; simp only [LB.input, Option.some.injEq, Prod.mk.injEq] at h; exact h.2.symm
  | empty => left; simp only [LB.input, Option.some.injEq, Prod.mk.injEq] at h; exact h.2.symm
  | capture i d e =>
    left
    simp only [LB.input] at h
    split_ifs at h <;> simp only [Option.some.injEq, Prod.mk.injEq] at h <;>
      first
      | exact h.2.symm
      | exact absurd h.1 (by simp)
  | property i d =>
    left
    simp only [LB.input] at h
    split_ifs at h <;> simp only [Option.some.injEq, Prod.mk.injEq] at h <;>
      first
      | exact h.2.symm
      | exact absurd h.1 (by simp)
  | error i =>
    left
    simp only [LB.input] at h
    split_ifs at h <;> simp only [Option.some.injEq, Prod.mk.injEq] at h <;>
      first
      | exact h.2.symm
      | exact absurd h.1 (by simp)
  | password pw =>
    simp only [LB.input] at h
    rcases hin : PasswordLB.input fs pw x with _ | ⟨b, pw'⟩ <;> rw [hin] at h
    · simp at h
    · simp only [Option.map_some', Option.some.injEq, Prod.mk.injEq] at h
      obtain ⟨hb, hlb⟩ := h
      subst hb
      rcases password_input_false fs pw x pw' hin with heq | ⟨hpin, heq⟩
      · left; rw [← hlb, heq]
      · right; exact ⟨pw, rfl, hpin, by rw [← hlb, heq]⟩

lemma fileListLB_false_eq (fl fl' : FileListLB) (x : Str)
    (h : fl.input x = some (false, fl')) : fl' = fl := by
  simp only [FileListLB.input] at h
  split_ifs at h with h1 h2 h3 h4 h5 h6 h7
  · rcases hp : parse_dash_line_to_range x with _ | tem <;> rw [hp] at h <;> simp at h
  · simp at h
  · simp at h
  · simp at h
  · rcases htem : fl.template with _ | tem <;> simp only [htem] at h
    · simp at h
    · rcases hfl2 : fileLineFrom x tem with _ | f <;> simp only [hfl2] at h <;> simp at h
  · simp at h
  · simp at h
  · simp only [Option.some.injEq, Prod.mk.injEq] at h
    exact h.2.symm

lemma inputLBs_cons_false (fs : Fs) (x : Str) (lb lb' : LB) (rest : List LB)
    (h : LB.input fs lb x = some (false, lb')) :
    inputLBs fs (lb :: rest) x = (inputLBs fs rest x).map (lb' :: ·) := by
  simp only [inputLBs, h]

lemma inputLBs_dispatch (fs : Fs) (x : Str) : ∀ (lbs lbs' : List LB),
    inputLBs fs lbs x = some lbs' → dispatchSplit fs x lbs lbs' := by
  intro lbs
  induction lbs with
  | nil =>
    intro lbs' h
    simp only [inputLBs, Option.some.injEq] at h
    subst h
    exact ⟨rfl, Or.inl (by intro i hi; simp at hi)⟩
  | cons lb rest ih =>
    intro lbs' h
    rcases hin : LB.input fs lb x with _ | ⟨b, lb2⟩
    · simp only [inputLBs, hin] at h
      exact absurd h (by simp)
    · cases b
      · rw [inputLBs_cons_false fs x lb lb2 rest hin] at h
        rcases hrest : inputLBs fs rest x with _ | rest' <;> rw [hrest] at h
        · simp at h
        · simp only [Option.map_some', Option.some.injEq] at h
          subst h
          obtain ⟨hlen, hsplit⟩ := ih rest' hrest
          refine ⟨by simp [hlen], ?_⟩
          rcases hsplit with hall | ⟨k, mlb, mlb', h1, h2, h3, h4, h5⟩
          · left
            intro i hi
            cases i with
            | zero => exact ⟨lb, lb2, by simp, by simp, hin⟩
            | succ n =>
              simp only [List.getElem?_cons_succ]
              exact hall n (by simpa using hi)
          · right
            refine ⟨k + 1, mlb, mlb', by simpa using h1, by simpa using h2, h3, ?_, ?_⟩
            · intro j hj
              cases j with
              | zero => exact ⟨lb, lb2, by simp, by simp, hin⟩
              | succ n =>
                simp only [List.getElem?_cons_succ]
                exact h4 n (by omega)
            · intro j hj
              cases j with
              | zero => omega
              | succ n =>
                simp only [List.getElem?_cons_succ]
                exact h5 n (by omega)
      · simp only [inputLBs, hin, Option.some.injEq] at h
        subst h
        refine ⟨rfl, Or.inr ⟨0, lb, lb2, by simp, by simp, hin, by intro j hj; omega, ?_⟩⟩
        intro j hj
        cases j with
        | zero => omega
        | succ n => simp only [List.getElem?_cons_succ]

lemma dedupConsec_cons (c : Str) (xs : List Str) :
    dedupConsec (c :: xs) =
      if xs.head? = some c then dedupConsec xs else c :: dedupConsec xs := by
  cases xs with
  | nil => simp [dedupConsec]
  | cons b t =>
    by_cases hcb : c = b
    · simp only [dedupConsec, if_pos hcb, List.head?_cons]
      rw [if_pos (by rw [hcb])]
    · simp only [dedupConsec, if_neg hcb, List.head?_cons]
      rw [if_neg (by simp [Ne.symm hcb])]

lemma dedupConsec_double (a : Str) : ∀ (l1 l2 : List Str),
    dedupConsec (l1 ++ a :: a :: l2) = dedupConsec (l1 ++ a :: l2) := by
  intro l1
  induction l1 with
  | nil =>
    intro l2
    simp only [List.nil_append]
    rw [dedupConsec_cons a (a :: l2)]
    rw [if_pos (by simp)]
  | cons c t ih =>
    intro l2
    simp only [List.cons_append]
    rw [dedupConsec_cons c (t ++ a :: a :: l2), dedupConsec_cons c (t ++ a :: l2)]
    have hh : (t ++ a :: a :: l2).head? = (t ++ a :: l2).head? := by
      cases t <;> simp
    rw [hh, ih]

lemma lb_false_cases (fs : Fs) (lb : LB) (x : Str)
    (h : (LB.input fs lb x).map Prod.fst = some false) :
    LB.input fs lb x = some (false, lb) ∨
    (∃ pw, lb = .password pw ∧ pw.inner = [] ∧
      LB.input fs lb x = some (false, .password { pw with inner := [[]] })) := by
  rcases hin : LB.input fs lb x with _ | ⟨b, lb2⟩ <;> rw [hin] at h
  · simp at h
  · simp only [Option.map_some', Option.some.injEq] at h
    subst h
    rcases lb_input_false fs lb lb2 x hin with heq | ⟨pw, hpw, hpin, heq⟩
    · left; rw [heq]
    · right; exact ⟨pw, hpw, hpin, by rw [heq]⟩

lemma unclaimed_output_eq (fs : Fs) (x : Str) (d : Document)
    (hshape : listShaped d.lbs.inner ∨ extractShaped d.lbs.inner ∨ d.lbs.inner = [])
    (hfl : d.lbs.fileListLB.input x = some (false, d.lbs.fileListLB))
    (hinner : ∀ lb ∈ d.lbs.inner, (LB.input fs lb x).map Prod.fst = some false) :
    ∃ d', d.input fs x = some d' ∧ d'.output = d.output := by
  obtain ⟨⟨inner, fl⟩⟩ := d
  simp only at hshape hfl hinner
  rcases hshape with ⟨t, i1, d1, i2, d2, pw, pi, pd, ei, hsh⟩ |
      ⟨t, i1, d1, i2, d2, pw, pi, pd, i3, d3, ei, hsh⟩ | hsh <;> subst hsh
  · -- list layout
    have h2 : LB.input fs (.capture i1 d1 (str "Listing archive:")) x =
        some (false, .capture i1 d1 (str "Listing archive:")) := by
      rcases lb_false_cases fs (.capture i1 d1 (str "Listing archive:")) x
          (hinner (.capture i1 d1 (str "Listing archive:")) (by simp)) with
        hh | ⟨pw2, hpw2, _, _⟩
      · exact hh
      · exact absurd hpw2 (by simp)
    have h3 : LB.input fs (.capture i2 d2 (str "file,")) x =
        some (false, .capture i2 d2 (str "file,")) := by
      rcases lb_false_cases fs (.capture i2 d2 (str "file,")) x
          (hinner (.capture i2 d2 (str "file,")) (by simp)) with
        hh | ⟨pw2, hpw2, _, _⟩
      · exact hh
      · exact absurd hpw2 (by simp)
    have h7 : LB.input fs (.property pi pd) x = some (false, .property pi pd) := by
      rcases lb_false_cases fs (.property pi pd) x
          (hinner (.property pi pd) (by simp)) with hh | ⟨pw2, hpw2, _, _⟩
      · exact hh
      · exact absurd hpw2 (by simp)
    have h9 : LB.input fs (.error ei) x = some (false, .error ei) := by
      rcases lb_false_cases fs (.error ei) x
          (hinner (.error ei) (by simp)) with hh | ⟨pw2, hpw2, _, _⟩
      · exact hh
      · exact absurd hpw2 (by simp)
    have ht : LB.input fs (.title t) x = some (false, .title t) := rfl
    have hem : LB.input fs LB.empty x = some (false, LB.empty) := rfl
    rcases lb_false_cases fs (.password pw) x (hinner (.password pw) (by simp)) with h5 |
        ⟨pw2, hpw2, hpin, h5⟩
    · -- password unchanged: the whole document is unchanged
      refine ⟨⟨⟨[LB.title t, LB.empty, LB.capture i1 d1 (str "Listing archive:"),
        LB.capture i2 d2 (str "file,"), LB.empty, LB.password pw, LB.empty,
        LB.property pi pd, LB.empty, LB.error ei, LB.empty], fl⟩⟩, ?_, rfl⟩
      simp only [Document.input, Lines.input, hfl]
      rw [inputLBs_cons_false fs x _ _ _ ht, inputLBs_cons_false fs x _ _ _ hem,
        inputLBs_cons_false fs x _ _ _ h2, inputLBs_cons_false fs x _ _ _ h3,
        inputLBs_cons_false fs x _ _ _ hem, inputLBs_cons_false fs x _ _ _ h5,
        inputLBs_cons_false fs x _ _ _ hem, inputLBs_cons_false fs x _ _ _ h7,
        inputLBs_cons_false fs x _ _ _ hem, inputLBs_cons_false fs x _ _ _ h9,
        inputLBs_cons_false fs x _ _ _ hem]
      rfl
    · -- password pushed an empty suggestion slot; dedup hides it
      injection hpw2 with hpweq
      subst hpweq
      refine ⟨⟨⟨[LB.title t, LB.empty, LB.capture i1 d1 (str "Listing archive:"),
        LB.capture i2 d2 (str "file,"), LB.empty,
        LB.password { pw with inner := [[]] }, LB.empty,
        LB.property pi pd, LB.empty, LB.error ei, LB.empty], fl⟩⟩, ?_, ?_⟩
      · simp only [Document.input, Lines.input, hfl]
        rw [inputLBs_cons_false fs x _ _ _ ht, inputLBs_cons_false fs x _ _ _ hem,
          inputLBs_cons_false fs x _ _ _ h2, inputLBs_cons_false fs x _ _ _ h3,
          inputLBs_cons_false fs x _ _ _ hem, inputLBs_cons_false fs x _ _ _ h5,
          inputLBs_cons_false fs x _ _ _ hem, inputLBs_cons_false fs x _ _ _ h7,
          inputLBs_cons_false fs x _ _ _ hem, inputLBs_cons_false fs x _ _ _ h9,
          inputLBs_cons_false fs x _ _ _ hem]
        rfl
      · simp only [Document.output, Lines.lines, List.map_cons, List.map_nil, LB.output,
          List.flatten_cons, List.flatten_nil, List.singleton_append, List.nil_append,
          List.cons_append, hpin, List.append_nil]
        exact dedupConsec_double [] [t, [], i1, i2]
          ([] :: pi :: [] :: ei :: [] :: fl.output)
  · -- extract layout
    have h2 : LB.input fs (.capture i1 d1 (str "Extracting archive:")) x =
        some (false, .capture i1 d1 (str "Extracting archive:")) := by
      rcases lb_false_cases fs (.capture i1 d1 (str "Extracting archive:")) x
          (hinner (.capture i1 d1 (str "Extracting archive:")) (by simp)) with
        hh | ⟨pw2, hpw2, _, _⟩
      · exact hh
      · exact absurd hpw2 (by simp)
    have h3 : LB.input fs (.capture i2 d2 (str "file,")) x =
        some (false, .capture i2 d2 (str "file,")) := by
      rcases lb_false_cases fs (.capture i2 d2 (str "file,")) x
          (hinner (.capture i2 d2 (str "file,")) (by simp)) with
        hh | ⟨pw2, hpw2, _, _⟩
      · exact hh
      · exact absurd hpw2 (by simp)
    have h7 : LB.input fs (.property pi pd) x = some (false, .property pi pd) := by
      rcases lb_false_cases fs (.property pi pd) x
          (hinner (.property pi pd) (by simp)) with hh | ⟨pw2, hpw2, _, _⟩
      · exact hh
      · exact absurd hpw2 (by simp)
    have h9 : LB.input fs (.capture i3 d3 (str "Everything")) x =
        some (false, .capture i3 d3 (str "Everything")) := by
      rcases lb_false_cases fs (.capture i3 d3 (str "Everything")) x
          (hinner (.capture i3 d3 (str "Everything")) (by simp)) with
        hh | ⟨pw2, hpw2, _, _⟩
      · exact hh
      · exact absurd hpw2 (by simp)
    have h10 : LB.input fs (.error ei) x = some (false, .error ei) := by
      rcases lb_false_cases fs (.error ei) x
          (hinner (.error ei) (by simp)) with hh | ⟨pw2, hpw2, _, _⟩
      · exact hh
      · exact absurd hpw2 (by simp)
    have ht : LB.input fs (.title t) x = some (false, .title t) := rfl
    have hem : LB.input fs LB.empty x = some (false, LB.empty) := rfl
    rcases lb_false_cases fs (.password pw) x (hinner (.password pw) (by simp)) with h5 |
        ⟨pw2, hpw2, hpin, h5⟩
    · refine ⟨⟨⟨[LB.title t, LB.empty, LB.capture i1 d1 (str "Extracting archive:"),
        LB.capture i2 d2 (str "file,"), LB.empty, LB.password pw, LB.empty,
        LB.property pi pd, LB.empty, LB.capture i3 d3 (str "Everything"),
        LB.error ei, LB.empty], fl⟩⟩, ?_, rfl⟩
      simp only [Document.input, Lines.input, hfl]
      rw [inputLBs_cons_false fs x _ _ _ ht, inputLBs_cons_false fs x _ _ _ hem,
        inputLBs_cons_false fs x _ _ _ h2, inputLBs_cons_false fs x _ _ _ h3,
        inputLBs_cons_false fs x _ _ _ hem, inputLBs_cons_false fs x _ _ _ h5,
        inputLBs_cons_false fs x _ _ _ hem, inputLBs_cons_false fs x _ _ _ h7,
        inputLBs_cons_false fs x _ _ _ hem, inputLBs_cons_false fs x _ _ _ h9,
        inputLBs_cons_false fs x _ _ _ h10, inputLBs_cons_false fs x _ _ _ hem]
      rfl
    · injection hpw2 with hpweq
      subst hpweq
      refine ⟨⟨⟨[LB.title t, LB.empty, LB.capture i1 d1 (str "Extracting archive:"),
        LB.capture i2 d2 (str "file,"), LB.empty,
        LB.password { pw with inner := [[]] }, LB.empty,
        LB.property pi pd, LB.empty, LB.capture i3 d3 (str "Everything"),
        LB.error ei, LB.empty], fl⟩⟩, ?_, ?_⟩
      · simp only [Document.input, Lines.input, hfl]
        rw [inputLBs_cons_false fs x _ _ _ ht, inputLBs_cons_false fs x _ _ _ hem,
          inputLBs_cons_false fs x _ _ _ h2, inputLBs_cons_false fs x _ _ _ h3,
          inputLBs_cons_false fs x _ _ _ hem, inputLBs_cons_false fs x _ _ _ h5,
          inputLBs_cons_false fs x _ _ _ hem, inputLBs_cons_false fs x _ _ _ h7,
          inputLBs_cons_false fs x _ _ _ hem, inputLBs_cons_false fs x _ _ _ h9,
          inputLBs_cons_false fs x _ _ _ h10, inputLBs_cons_false fs x _ _ _ hem]
        rfl
      · simp only [Document.output, Lines.lines, List.map_cons, List.map_nil, LB.output,
          List.flatten_cons, List.flatten_nil, List.singleton_append, List.nil_append,
          List.cons_append, hpin, List.append_nil]
        exact dedupConsec_double [] [t, [], i1, i2]
          ([] :: pi :: [] :: i3 :: ei :: [] :: fl.output)
  · -- no classifiers at all
    refine ⟨⟨⟨[], fl⟩⟩, ?_, rfl⟩
    simp only [Document.input, Lines.input, hfl]
    rfl

/-- **C8** counterexample.  In the extract layout, the single raw line
`"Input passsword Everything"` changes TWO classifiers' outputs: the
Password classifier (offered the line earlier, it pushes an empty prompt
slot because of the `"Input passsword"` typo-prefix check yet does not
claim the line, output `[]` becoming `[""]`) and the `"Everything"` capture
classifier which then claims it (output `[""]` becoming the line).  So
"feeding a single line changes at most one classifier's output" is
false. -/
theorem C8_single_claim_counterexample :
    (((Document.layoutExtract Document.init).input []
        (str "Input passsword Everything")).map
      (fun d => ((d.lbs.inner.map LB.output)[5]?, (d.lbs.inner.map LB.output)[9]?)) =
      some (some [[]], some [str "Input passsword Everything"])) ∧
    ((Document.layoutExtract Document.init).lbs.inner.map LB.output)[5]? = some [] ∧
    ((Document.layoutExtract Document.init).lbs.inner.map LB.output)[9]? = some [[]] := by
  decide

/-- **C8** (amended).  (1) Dispatch is first-claim-wins: when the
persistent file-listing classifier claims a line the other classifiers are
untouched; otherwise either no classifier claims the line, or there is
exactly one claiming position - positions before it were offered the line
and declined, positions after it were never offered it.  At most one
classifier claims each line, but a declining Password classifier may still
mutate (the `"Input passsword"` typo prefix), so up to two outputs can
change.  (2) A line claimed by no classifier leaves the rendered output of
a list- or extract-layout Document unchanged: unclaimed lines never show up in
the render. -/
theorem C8_dispatch_amended :
    (∀ (fs : Fs) (x : Str) (ls ls' : Lines), Lines.input fs ls x = some ls' →
      ((∃ fl', ls.fileListLB.input x = some (true, fl') ∧
          ls' = { inner := ls.inner, fileListLB := fl' }) ∨
       (ls.fileListLB.input x = some (false, ls.fileListLB) ∧
        ls'.fileListLB = ls.fileListLB ∧ dispatchSplit fs x ls.inner ls'.inner))) ∧
    (∀ (fs : Fs) (x : Str) (d : Document),
      (listShaped d.lbs.inner ∨ extractShaped d.lbs.inner ∨ d.lbs.inner = []) →
      d.lbs.fileListLB.input x = some (false, d.lbs.fileListLB) →
      (∀ lb ∈ d.lbs.inner, (LB.input fs lb x).map Prod.fst = some false) →
      ∃ d', d.input fs x = some d' ∧ d'.output = d.output) := by
  constructor
  · intro fs x ls ls' h
    simp only [Lines.input] at h
    rcases hfl : ls.fileListLB.input x with _ | ⟨b, fl'⟩ <;> simp only [hfl] at h
    · exact absurd h (by simp)
    · cases b
      · rcases hlbs : inputLBs fs ls.inner x with _ | inner' <;> rw [hlbs] at h
        · simp at h
        · simp only [Option.map_some', Option.some.injEq] at h
          have hfleq := fileListLB_false_eq _ _ _ hfl
          right
          subst h
          refine ⟨by rw [hfleq], by simp [hfleq], ?_⟩
          simpa using inputLBs_dispatch fs x _ _ hlbs
      · injection h with h
        exact Or.inl ⟨fl', rfl, h.symm⟩
  · intro fs x d hsh hfl hinner
    exact unclaimed_output_eq fs x d hsh hfl hinner

/-- Witness for `C8_dispatch_amended`: the unclaimed line `"hello"` leaves
a fresh list-layout Document's rendered output unchanged. -/
theorem C8_dispatch_amended_witness :
    ((Document.layoutList Document.init).input [] (str "hello")).map Document.output =
      some (Document.layoutList Document.init).output := by
  obtain ⟨d', h1, h2⟩ := C8_dispatch_amended.2 [] (str "hello")
    (Document.layoutList Document.init)
    (Or.inl ⟨titleText, [], false, [], false, {}, [], false, [], rfl⟩)
    (by decide) (by decide)
  rw [h1, Option.map_some', h2]

end Z7V
